import Mathlib

/-!
Verification of the latency-probing and classification engine of
`proxy-delay-rs` (`src/main.rs`).

Floating-point latencies (`f64`) are modelled as rationals `ℚ`: every value
the program stores is either a finite measured duration or the sentinel
`f64::INFINITY` marking a failed attempt, so a latency cell is modelled as
`Option ℚ` with `none` standing for the infinite sentinel.  No NaN ever
arises in the program (elapsed times are finite and nonnegative), so
`partial_cmp(..).unwrap()` is total comparison.
-/

namespace ProxyDelay

/-- The four-way classification of a node, from `enum LatencyResult`
(`src/main.rs` lines 35-46). -/
inductive LatencyResult where
  | success (median average minimum maximum : ℚ)
  | unstable (valid total : Nat)
  | allFailed
  | sessionError (msg : String)
deriving DecidableEq

/-- Whether a result is the `Success` variant (the pattern the ranker's
comparator in `main` matches on). -/
def LatencyResult.isSuccess : LatencyResult → Bool
  | .success _ _ _ _ => true
  | _ => false

/-- The possible outcomes of one network request attempt, as distinguished by
the `match result` in `test_node_latency` (lines 100-135): a response whose
status may or may not be a success (`Ok(Ok(response))`), a transport error
(`Ok(Err(e))`, carrying the connect/timeout flags and the error message), or
the outer timeout firing (`Err(_)`). -/
inductive AttemptResult where
  | ok (statusSuccess : Bool) (elapsed_ms : ℚ)
  | transportError (isConnect isTimeout : Bool) (msg : List Char)
  | timedOut
deriving DecidableEq

/-- The latency value an attempt records when it is a timed success
(`Ok(Ok(response))` with `response.status().is_success()`), and `none` in
every case where the loop pushes `f64::INFINITY` and breaks. -/
def isTimedAttempt : AttemptResult → Option ℚ
  | .ok true t => some t
  | _ => none

/-- The attempt loop of `test_node_latency` (lines 93-136), started at attempt
index `i` with `fuel` iterations remaining.  A timed success pushes its
elapsed time and continues; a non-success HTTP status, a transport error, or a
timeout pushes the infinite sentinel (`none`) and breaks out of the loop. -/
def runAttemptsGo (net : Nat → AttemptResult) : Nat → Nat → List (Option ℚ)
  | _, 0 => []
  | i, fuel + 1 =>
    match net i with
    | .ok true t => some t :: runAttemptsGo net (i + 1) fuel
    | .ok false _ => [none]
    | .transportError _ _ _ => [none]
    | .timedOut => [none]

/-- The full attempt loop `for i in 0..test_count` of `test_node_latency`,
producing the `latencies` vector. -/
def runAttempts (net : Nat → AttemptResult) (test_count : Nat) : List (Option ℚ) :=
  runAttemptsGo net 0 test_count

/-- `valid_latencies` (lines 143-146): the finite (non-infinite) entries. -/
def validLatencies (latencies : List (Option ℚ)) : List ℚ :=
  latencies.filterMap id

/-- The `sorted` vector of lines 153-154: the valid latencies sorted
ascending (`sort_unstable_by(partial_cmp)`; on the finite values this is the
total order on ℚ, and the sorted list of a multiset is unique, so a stable
`insertionSort` gives the same list). -/
def sortedValid (latencies : List (Option ℚ)) : List ℚ :=
  (validLatencies latencies).insertionSort (· ≤ ·)

/-- The result-processing tail of `test_node_latency` (lines 138-163): empty
or all-infinite yields `AllFailed`; fewer than 3 valid samples yields
`Unstable(valid, test_count)`; otherwise the valid samples are sorted
ascending and `Success` carries `sorted[len/2]`, the arithmetic mean, the
first and the last element of the sorted vector. -/
def classify (latencies : List (Option ℚ)) (test_count : Nat) : LatencyResult :=
  if latencies.isEmpty || latencies.all fun l => l.isNone then
    .allFailed
  else if (validLatencies latencies).length < 3 then
    .unstable (validLatencies latencies).length test_count
  else
    .success ((sortedValid latencies).getD ((sortedValid latencies).length / 2) 0)
      ((sortedValid latencies).sum / ((sortedValid latencies).length : ℚ))
      ((sortedValid latencies).headD 0)
      ((sortedValid latencies).getLastD 0)

/-- The network-facing behaviour one session can observe: whether
`Proxy::all` fails (with its error message), whether `Client::builder().build()`
fails, the (discarded) outcome of the warmup request, and the outcome of each
timed attempt. -/
structure Network where
  proxyResult : Option String
  clientResult : Option String
  warmupOutcome : AttemptResult
  attemptOutcome : Nat → AttemptResult

/-- `test_node_latency` (lines 64-164): proxy construction failure and client
construction failure return `SessionError` immediately; otherwise the warmup
request is issued and its outcome discarded, the attempt loop runs, and its
latencies are classified. -/
def test_node_latency (net : Network) (test_count : Nat) : LatencyResult :=
  match net.proxyResult with
  | some e => .sessionError ("Failed to create proxy: " ++ e)
  | none =>
    match net.clientResult with
    | some e => .sessionError ("Failed to create client: " ++ e)
    | none =>
      let _warmup := net.warmupOutcome
      classify (runAttempts net.attemptOutcome test_count) test_count

/-- The ranker's comparator (`results.sort_by` in `main`, lines 246-258):
two `Success` rows compare by median (`partial_cmp(..).unwrap()`, total on
the finite medians), a `Success` row is `Less` than any other row, any other
row is `Greater` than a `Success` row, and any two non-`Success` rows are
`Equal`. -/
def cmpLatency : LatencyResult → LatencyResult → Ordering
  | .success ma _ _ _, .success mb _ _ _ =>
      if ma < mb then .lt else if mb < ma then .gt else .eq
  | .success _ _ _ _, _ => .lt
  | _, .success _ _ _ _ => .gt
  | _, _ => .eq

/-- A report row `(tag, port, LatencyResult)`. -/
abbrev Row := String × Nat × LatencyResult

/-- The final ranking: a stable sort of the report rows by the comparator
(`results.sort_by`; Rust's `sort_by` is stable, and a stable comparator sort
is `insertionSort` with the relation `cmp a b ≠ Greater`). -/
def rankResults (rows : List Row) : List Row :=
  rows.insertionSort fun a b => cmpLatency a.2.2 b.2.2 ≠ Ordering.gt

/-- The UTF-8 byte length of one character, as Rust's `String::len` counts
it. -/
def charSize (c : Char) : Nat :=
  if c.toNat < 0x80 then 1
  else if c.toNat < 0x800 then 2
  else if c.toNat < 0x10000 then 3
  else 4

/-- Rust `String::len`: the total UTF-8 byte length of a string's
characters. -/
def utf8ByteLen (s : List Char) : Nat :=
  (s.map charSize).sum

/-- Rust's byte slice `&s[..n]`: `some` of the characters occupying the first
`n` bytes when byte offset `n` is a character boundary, `none` (a panic) when
it is not. -/
def takeBytes : List Char → Nat → Option (List Char)
  | _, 0 => some []
  | [], _ + 1 => none
  | c :: cs, n + 1 =>
    if charSize c ≤ n + 1 then
      (takeBytes cs (n + 1 - charSize c)).map (fun t => c :: t)
    else none

/-- The error-message truncation of `test_node_latency` (lines 119-124):
messages longer than 20 bytes are sliced to `&error_str[..20]`, which panics
(`none`) when byte offset 20 is not a character boundary. -/
def truncateErrorMsg (s : List Char) : Option (List Char) :=
  if 20 < utf8ByteLen s then takeBytes s 20 else some s

/-! ### Helper lemmas about the classifier -/

lemma validLatencies_eq_nil_iff (ls : List (Option ℚ)) :
    validLatencies ls = [] ↔ ∀ o ∈ ls, o = none := by
  simp [validLatencies, List.filterMap_eq_nil_iff, id]

lemma allFailed_cond_iff (ls : List (Option ℚ)) :
    (ls.isEmpty || ls.all fun l => l.isNone) = true ↔ validLatencies ls = [] := by
  rw [Bool.or_eq_true, List.all_eq_true, validLatencies_eq_nil_iff]
  constructor
  · rintro (he | h)
    · rw [List.isEmpty_iff.mp he]
      intro o ho
      cases ho
    · intro o ho
      simpa using h o ho
  · intro h
    right
    intro o ho
    simpa using h o ho

lemma classify_eq_allFailed_iff (ls : List (Option ℚ)) (n : Nat) :
    classify ls n = .allFailed ↔ validLatencies ls = [] := by
  constructor
  · intro h
    by_cases hc : (ls.isEmpty || ls.all fun l => l.isNone) = true
    · exact (allFailed_cond_iff ls).mp hc
    · exfalso
      rw [classify, if_neg hc] at h
      by_cases h3 : (validLatencies ls).length < 3
      · rw [if_pos h3] at h
        exact LatencyResult.noConfusion h
      · rw [if_neg h3] at h
        exact LatencyResult.noConfusion h
  · intro h
    rw [classify, if_pos ((allFailed_cond_iff ls).mpr h)]

lemma classify_success_eq (ls : List (Option ℚ)) (n : Nat)
    (h3 : 3 ≤ (validLatencies ls).length) :
    classify ls n =
      .success ((sortedValid ls).getD ((sortedValid ls).length / 2) 0)
        ((sortedValid ls).sum / ((sortedValid ls).length : ℚ))
        ((sortedValid ls).headD 0)
        ((sortedValid ls).getLastD 0) := by
  have hne : validLatencies ls ≠ [] := by
    intro h
    rw [h] at h3
    simp at h3
  have hcond : ¬ ((ls.isEmpty || ls.all fun l => l.isNone) = true) :=
    fun hc => hne ((allFailed_cond_iff ls).mp hc)
  rw [classify, if_neg hcond, if_neg (by omega)]

lemma sortedValid_perm (ls : List (Option ℚ)) : (sortedValid ls).Perm (validLatencies ls) :=
  List.perm_insertionSort _ _

lemma sortedValid_sorted (ls : List (Option ℚ)) : (sortedValid ls).Sorted (· ≤ ·) :=
  List.sorted_insertionSort _ _

lemma sortedValid_length (ls : List (Option ℚ)) :
    (sortedValid ls).length = (validLatencies ls).length :=
  (sortedValid_perm ls).length_eq

/-! ### Helper lemmas about sorted rational lists -/

lemma headD_mem {l : List ℚ} (h : l ≠ []) : l.headD 0 ∈ l := by
  cases l with
  | nil => exact absurd rfl h
  | cons a t => simp

lemma getLastD_mem {l : List ℚ} (h : l ≠ []) : l.getLastD 0 ∈ l := by
  induction l with
  | nil => exact absurd rfl h
  | cons a t ih =>
    cases t with
    | nil => simp
    | cons b t2 =>
      have hrw : (a :: b :: t2).getLastD 0 = (b :: t2).getLastD 0 := by
        rw [List.getLastD_cons, List.getLastD_cons, List.getLastD_cons]
      rw [hrw]
      exact List.mem_cons_of_mem a (ih (by simp))

lemma sorted_headD_le {l : List ℚ} (hs : l.Sorted (· ≤ ·)) {x : ℚ} (hx : x ∈ l) :
    l.headD 0 ≤ x := by
  cases l with
  | nil => cases hx
  | cons a t =>
    rcases List.mem_cons.mp hx with rfl | hx
    · simp
    · simpa using (List.sorted_cons.mp hs).1 x hx

lemma sorted_le_getLastD {l : List ℚ} (hs : l.Sorted (· ≤ ·)) {x : ℚ} (hx : x ∈ l) :
    x ≤ l.getLastD 0 := by
  induction l with
  | nil => cases hx
  | cons a t ih =>
    cases t with
    | nil =>
      rcases List.mem_cons.mp hx with rfl | hx
      · simp
      · cases hx
    | cons b t2 =>
      have hrw : (a :: b :: t2).getLastD 0 = (b :: t2).getLastD 0 := by
        rw [List.getLastD_cons, List.getLastD_cons, List.getLastD_cons]
      rw [hrw]
      rcases List.mem_cons.mp hx with rfl | hx
      · exact (List.sorted_cons.mp hs).1 _ (getLastD_mem (by simp))
      · exact ih (List.sorted_cons.mp hs).2 hx

/-! ### Claims C4 and C5 -/

/-- Claim C4: for every attempt sequence with `0 < valid < 3` (where `valid`
is the count of `Timed` outcomes), classification returns exactly
`Unstable(valid, total_attempts_configured)`, the second component being the
configured attempt count, not the number of attempts actually issued. -/
theorem classify_unstable (ls : List (Option ℚ)) (n : Nat)
    (h0 : 0 < (validLatencies ls).length) (h3 : (validLatencies ls).length < 3) :
    classify ls n = .unstable (validLatencies ls).length n := by
  have hne : validLatencies ls ≠ [] := by
    intro h
    rw [h] at h0
    simp at h0
  have hcond : ¬ ((ls.isEmpty || ls.all fun l => l.isNone) = true) :=
    fun hc => hne ((allFailed_cond_iff ls).mp hc)
  rw [classify, if_neg hcond, if_pos h3]

/-- Witness for C4: the sequence `[Timed 5, Failed]` (one valid sample) under
a configured count of 10 attempts classifies as `Unstable(1, 10)`, reporting
the configured total, not the 2 attempts issued. -/
theorem classify_unstable_witness :
    0 < (validLatencies [some (5 : ℚ), none]).length
    ∧ (validLatencies [some (5 : ℚ), none]).length < 3
    ∧ classify [some (5 : ℚ), none] 10 = .unstable 1 10 :=
  ⟨by decide, by decide, classify_unstable [some (5 : ℚ), none] 10 (by decide) (by decide)⟩

/-- Claim C5: for every attempt sequence that is empty or contains zero valid
(`Timed`) outcomes, classification returns exactly `AllFailed`, and
`AllFailed` is returned only in that case. -/
theorem classify_allFailed_iff (ls : List (Option ℚ)) (n : Nat) :
    classify ls n = .allFailed ↔ (ls = [] ∨ validLatencies ls = []) := by
  rw [classify_eq_allFailed_iff]
  constructor
  · exact Or.inr
  · rintro (rfl | h)
    · rfl
    · exact h

/-! ### Claims C1 and C7 -/

/-- Claim C1: for every attempt sequence with at least 3 valid (`Timed`)
samples, classification returns `Success` where `minimum` is the smallest
valid duration, `maximum` the largest, `average` the arithmetic mean of all
valid durations, and `median` the element at index `⌊valid/2⌋` of the
ascending-sorted valid durations (here `s` is any sorted permutation of the
valid durations; the upper-middle element is taken for even counts). -/
theorem classify_success_stats (ls : List (Option ℚ)) (n : Nat) (s : List ℚ)
    (h3 : 3 ≤ (validLatencies ls).length)
    (hperm : s.Perm (validLatencies ls))
    (hsort : s.Sorted (· ≤ ·)) :
    classify ls n =
      .success (s.getD (s.length / 2) 0)
        ((validLatencies ls).sum / ((validLatencies ls).length : ℚ))
        (s.headD 0) (s.getLastD 0)
    ∧ s.headD 0 ∈ validLatencies ls ∧ (∀ x ∈ validLatencies ls, s.headD 0 ≤ x)
    ∧ s.getLastD 0 ∈ validLatencies ls ∧ (∀ x ∈ validLatencies ls, x ≤ s.getLastD 0) := by
  have hs_eq : sortedValid ls = s :=
    List.eq_of_perm_of_sorted ((sortedValid_perm ls).trans hperm.symm)
      (sortedValid_sorted ls) hsort
  have hsne : s ≠ [] := by
    intro h
    have hlen := hperm.length_eq
    rw [h] at hlen
    simp at hlen
    omega
  refine ⟨?_, hperm.mem_iff.mp (headD_mem hsne), ?_, hperm.mem_iff.mp (getLastD_mem hsne), ?_⟩
  · rw [classify_success_eq ls n h3, hs_eq, hperm.sum_eq, hperm.length_eq]
  · intro x hx
    exact sorted_headD_le hsort (hperm.mem_iff.mpr hx)
  · intro x hx
    exact sorted_le_getLastD hsort (hperm.mem_iff.mpr hx)

/-- Witness for C1: the four valid samples `[10, 20, 30, 40]` classify as
`Success` with median `30` (the upper-middle element, not `25`), average
`25`, minimum `10`, maximum `40`. -/
theorem classify_success_stats_witness :
    classify [some (10 : ℚ), some 20, some 30, some 40] 4 = .success 30 25 10 40 := by
  have h := (classify_success_stats [some (10 : ℚ), some 20, some 30, some 40] 4
      [10, 20, 30, 40] (by decide) (by decide) (by decide)).1
  rw [h]
  norm_num [validLatencies, List.filterMap_cons, List.getD, List.getLastD]

/-- Claim C7: for every attempt sequence with `valid ≥ 3`, the `Success`
statistics satisfy `minimum ≤ median ≤ maximum` and
`minimum ≤ average ≤ maximum`. -/
theorem classify_stats_bounds (ls : List (Option ℚ)) (n : Nat)
    (h3 : 3 ≤ (validLatencies ls).length) :
    ∃ med avg mn mx, classify ls n = .success med avg mn mx
      ∧ mn ≤ med ∧ med ≤ mx ∧ mn ≤ avg ∧ avg ≤ mx := by
  have hlen : (sortedValid ls).length = (validLatencies ls).length := sortedValid_length ls
  have hne : sortedValid ls ≠ [] := by
    intro h
    rw [h] at hlen
    simp at hlen
    omega
  have hs := sortedValid_sorted ls
  have hidx : (sortedValid ls).length / 2 < (sortedValid ls).length :=
    Nat.div_lt_self (by omega) (by omega)
  have hmed_mem : (sortedValid ls).getD ((sortedValid ls).length / 2) 0 ∈ sortedValid ls := by
    rw [List.getD_eq_getElem _ _ hidx]
    exact List.getElem_mem hidx
  have hpos : (0 : ℚ) < ((sortedValid ls).length : ℚ) := by
    have h0 : 0 < (sortedValid ls).length := by omega
    exact_mod_cast h0
  refine ⟨_, _, _, _, classify_success_eq ls n h3,
    sorted_headD_le hs hmed_mem, sorted_le_getLastD hs hmed_mem, ?_, ?_⟩
  · have hbound : ∀ x ∈ sortedValid ls, (sortedValid ls).headD 0 ≤ x :=
      fun x hx => sorted_headD_le hs hx
    have hsum := List.card_nsmul_le_sum (sortedValid ls) _ hbound
    rw [nsmul_eq_mul] at hsum
    rw [le_div_iff₀ hpos]
    linarith
  · have hbound : ∀ x ∈ sortedValid ls, x ≤ (sortedValid ls).getLastD 0 :=
      fun x hx => sorted_le_getLastD hs hx
    have hsum := List.sum_le_card_nsmul (sortedValid ls) _ hbound
    rw [nsmul_eq_mul] at hsum
    rw [div_le_iff₀ hpos]
    linarith

/-- Witness for C7: the sequence `[Timed 10, Timed 30, Timed 20]` has three
valid samples, so C7 yields ordered `Success` statistics. -/
theorem classify_stats_bounds_witness :
    3 ≤ (validLatencies [some (10 : ℚ), some 30, some 20]).length
    ∧ ∃ med avg mn mx, classify [some (10 : ℚ), some 30, some 20] 10 = .success med avg mn mx
      ∧ mn ≤ med ∧ med ≤ mx ∧ mn ≤ avg ∧ avg ≤ mx :=
  ⟨by decide, classify_stats_bounds [some (10 : ℚ), some 30, some 20] 10 (by decide)⟩

/-! ### Helper lemmas about the attempt loop -/

lemma runAttemptsGo_succ (net : Nat → AttemptResult) (i fuel : Nat) :
    runAttemptsGo net i (fuel + 1) =
      match net i with
      | .ok true t => some t :: runAttemptsGo net (i + 1) fuel
      | .ok false _ => [none]
      | .transportError _ _ _ => [none]
      | .timedOut => [none] := rfl

lemma runAttemptsGo_succ_timed {net : Nat → AttemptResult} {i fuel : Nat} {t : ℚ}
    (h : isTimedAttempt (net i) = some t) :
    runAttemptsGo net i (fuel + 1) = some t :: runAttemptsGo net (i + 1) fuel := by
  rw [runAttemptsGo_succ]
  cases hn : net i with
  | ok b t2 =>
    cases b with
    | true =>
      rw [hn] at h
      simp only [isTimedAttempt, Option.some.injEq] at h
      rw [h]
    | false =>
      rw [hn] at h
      simp [isTimedAttempt] at h
  | transportError a b m =>
    rw [hn] at h
    simp [isTimedAttempt] at h
  | timedOut =>
    rw [hn] at h
    simp [isTimedAttempt] at h

lemma runAttemptsGo_succ_failed {net : Nat → AttemptResult} {i fuel : Nat}
    (h : isTimedAttempt (net i) = none) :
    runAttemptsGo net i (fuel + 1) = [none] := by
  rw [runAttemptsGo_succ]
  cases hn : net i with
  | ok b t2 =>
    cases b with
    | true =>
      rw [hn] at h
      simp [isTimedAttempt] at h
    | false => rfl
  | transportError a b m => rfl
  | timedOut => rfl

lemma runAttemptsGo_early_stop (net : Nat → AttemptResult) (k : Nat) :
    ∀ (i fuel : Nat), k < fuel →
      (∀ j, j < k → (isTimedAttempt (net (i + j))).isSome = true) →
      isTimedAttempt (net (i + k)) = none →
      runAttemptsGo net i fuel =
        (List.range k).map (fun j => isTimedAttempt (net (i + j))) ++ [none] := by
  induction k with
  | zero =>
    intro i fuel hk _ hfail
    obtain ⟨fuel, rfl⟩ : ∃ f, fuel = f + 1 := ⟨fuel - 1, by omega⟩
    simp only [List.range_zero, List.map_nil, List.nil_append]
    exact runAttemptsGo_succ_failed (by simpa using hfail)
  | succ k ih =>
    intro i fuel hk hsucc hfail
    obtain ⟨fuel, rfl⟩ : ∃ f, fuel = f + 1 := ⟨fuel - 1, by omega⟩
    have h0 : (isTimedAttempt (net i)).isSome = true := by
      have h := hsucc 0 (by omega)
      simpa using h
    obtain ⟨t, ht⟩ := Option.isSome_iff_exists.mp h0
    rw [runAttemptsGo_succ_timed ht]
    rw [ih (i + 1) fuel (by omega)
      (fun j hj => by
        have h := hsucc (j + 1) (by omega)
        have he : i + (j + 1) = i + 1 + j := by omega
        rwa [he] at h)
      (by
        have he : i + (k + 1) = i + 1 + k := by omega
        rwa [he] at hfail)]
    rw [List.range_succ_eq_map, List.map_cons, List.map_map]
    have hfun : ((fun j => isTimedAttempt (net (i + j))) ∘ Nat.succ)
        = fun j => isTimedAttempt (net (i + 1 + j)) := by
      funext j
      simp only [Function.comp_apply]
      have he : i + Nat.succ j = i + 1 + j := by omega
      rw [he]
    rw [hfun]
    simp [ht]

/-- The structural invariant of the attempt loop: the recorded latencies are
some number of finite samples, followed by at most one infinite sentinel, and
the loop runs to the full count exactly when no sentinel was recorded. -/
lemma runAttemptsGo_shape (net : Nat → AttemptResult) :
    ∀ (fuel i : Nat), ∃ ts : List ℚ,
      (runAttemptsGo net i fuel = ts.map some ∧ ts.length = fuel)
      ∨ (runAttemptsGo net i fuel = ts.map some ++ [none] ∧ ts.length < fuel) := by
  intro fuel
  induction fuel with
  | zero => exact fun i => ⟨[], Or.inl ⟨rfl, rfl⟩⟩
  | succ fuel ih =>
    intro i
    cases hn : net i with
    | ok b t =>
      cases b with
      | true =>
        obtain ⟨ts, h⟩ := ih (i + 1)
        have ht : isTimedAttempt (net i) = some t := by
          rw [hn]
          rfl
        refine ⟨t :: ts, ?_⟩
        rcases h with ⟨heq, hlen⟩ | ⟨heq, hlen⟩
        · exact Or.inl ⟨by rw [runAttemptsGo_succ_timed ht, heq]; rfl, by simp [hlen]⟩
        · refine Or.inr ⟨by rw [runAttemptsGo_succ_timed ht, heq]; rfl, ?_⟩
          simp only [List.length_cons]
          omega
      | false =>
        exact ⟨[], Or.inr ⟨runAttemptsGo_succ_failed (by rw [hn]; rfl), by simp⟩⟩
    | transportError a b m =>
      exact ⟨[], Or.inr ⟨runAttemptsGo_succ_failed (by rw [hn]; rfl), by simp⟩⟩
    | timedOut =>
      exact ⟨[], Or.inr ⟨runAttemptsGo_succ_failed (by rw [hn]; rfl), by simp⟩⟩

lemma validLatencies_map_some (ts : List ℚ) : validLatencies (ts.map some) = ts := by
  induction ts with
  | nil => rfl
  | cons a t ih =>
    simp only [validLatencies, List.map_cons, List.filterMap_cons, id_eq] at ih ⊢
    rw [ih]

/-! ### Claims C3 and C9 -/

/-- Claim C3: for every attempt whose outcome is a failure (non-success HTTP
status, transport error, or timeout), the session records exactly one
`Failed` outcome for that attempt and issues no further attempts: if the
first `k` attempts succeed and attempt index `k < n` fails, the session with
`n` configured attempts produces exactly the `k` timed outcomes followed by a
single `Failed`, `k + 1` outcomes in total. -/
theorem session_early_stop (net : Nat → AttemptResult) (n k : Nat) (hk : k < n)
    (hsucc : ∀ j, j < k → (isTimedAttempt (net j)).isSome = true)
    (hfail : isTimedAttempt (net k) = none) :
    runAttempts net n = (List.range k).map (fun j => isTimedAttempt (net j)) ++ [none]
    ∧ (runAttempts net n).length = k + 1 := by
  have h := runAttemptsGo_early_stop net k 0 n hk
    (fun j hj => by simpa using hsucc j hj) (by simpa using hfail)
  have h' : runAttempts net n
      = (List.range k).map (fun j => isTimedAttempt (net j)) ++ [none] := by
    rw [runAttempts, h]
    simp
  refine ⟨h', ?_⟩
  rw [h']
  simp

/-- Witness for C3: a session configured for 10 attempts whose attempts 1 and
2 succeed and whose attempt 3 times out produces exactly the 3 outcomes
`[Timed 10, Timed 10, Failed]` and never continues to attempts 4-10. -/
theorem session_early_stop_witness :
    runAttempts (fun i => if i < 2 then .ok true 10 else .timedOut) 10
      = [some 10, some 10, none]
    ∧ (runAttempts (fun i => if i < 2 then .ok true 10 else .timedOut) 10).length = 3 := by
  have h := session_early_stop (fun i => if i < 2 then .ok true 10 else .timedOut) 10 2
    (by omega) (by decide) (by decide)
  exact ⟨by rw [h.1]; decide, h.2⟩

/-- Claim C9 (implicit): every attempt-outcome sequence of a session with
`attempt_count n` is `k` `Timed` outcomes (`0 ≤ k ≤ n`, with `k = n` when no
failure occurred) optionally followed by exactly one `Failed` as the final
element, so at most one `Failed` exists, a `Failed` never precedes a `Timed`,
and (for `n > 0`) `AllFailed` arises only when the very first attempt
fails. -/
theorem session_shape (net : Nat → AttemptResult) (n : Nat) :
    (∃ ts : List ℚ,
      (runAttempts net n = ts.map some ∧ ts.length = n)
      ∨ (runAttempts net n = ts.map some ++ [none] ∧ ts.length < n))
    ∧ ((runAttempts net n).filter (fun o => o.isNone)).length ≤ 1
    ∧ (0 < n → classify (runAttempts net n) n = .allFailed → runAttempts net n = [none]) := by
  obtain ⟨ts, hshape⟩ := runAttemptsGo_shape net n 0
  have hfilter : ∀ us : List ℚ, (us.map some).filter (fun o => o.isNone) = [] := by
    intro us
    rw [List.filter_eq_nil_iff]
    intro a ha
    obtain ⟨x, _, rfl⟩ := List.mem_map.mp ha
    simp
  refine ⟨⟨ts, hshape⟩, ?_, ?_⟩
  · show ((runAttemptsGo net 0 n).filter (fun o => o.isNone)).length ≤ 1
    rcases hshape with ⟨heq, _⟩ | ⟨heq, _⟩
    · rw [heq, hfilter]
      simp
    · rw [heq, List.filter_append, hfilter]
      simp
  · intro hn hcls
    have hv : validLatencies (runAttempts net n) = [] :=
      (classify_eq_allFailed_iff _ _).mp hcls
    show runAttemptsGo net 0 n = [none]
    rcases hshape with ⟨heq, hlen⟩ | ⟨heq, hlen⟩
    · exfalso
      have : validLatencies (runAttempts net n) = ts := by
        show validLatencies (runAttemptsGo net 0 n) = ts
        rw [heq, validLatencies_map_some]
      rw [this] at hv
      rw [hv] at hlen
      simp at hlen
      omega
    · have hts : ts = [] := by
        have : validLatencies (runAttempts net n) = ts := by
          show validLatencies (runAttemptsGo net 0 n) = ts
          rw [heq]
          simp only [validLatencies, List.filterMap_append]
          rw [show (List.filterMap id [(none : Option ℚ)]) = [] from rfl, List.append_nil]
          exact validLatencies_map_some ts
        rw [this] at hv
        exact hv
      rw [heq, hts]
      rfl

/-- Witness for C9: a session of 5 configured attempts whose first attempt
times out records exactly `[Failed]` and classifies as `AllFailed`. -/
theorem session_shape_witness :
    0 < 5
    ∧ classify (runAttempts (fun _ => .timedOut) 5) 5 = .allFailed
    ∧ runAttempts (fun _ => .timedOut) 5 = [none] :=
  ⟨by decide, by decide, (session_shape (fun _ => .timedOut) 5).2.2 (by decide) (by decide)⟩

/-! ### Claims C6 and C8 -/

/-- Claim C6: whenever proxy or client construction fails, the session yields
`SessionError` carrying a message, independent of the configured attempt
count, the warmup outcome and the attempt outcomes (no warmup and no attempts
are consulted); construction failure is never converted into anything other
than `SessionError`. -/
theorem construction_failure_sessionError :
    (∀ (e : String) (c : Option String) (w : AttemptResult) (f : Nat → AttemptResult) (n : Nat),
        test_node_latency ⟨some e, c, w, f⟩ n = .sessionError ("Failed to create proxy: " ++ e))
    ∧ (∀ (e : String) (w : AttemptResult) (f : Nat → AttemptResult) (n : Nat),
        test_node_latency ⟨none, some e, w, f⟩ n = .sessionError ("Failed to create client: " ++ e)) :=
  ⟨fun _ _ _ _ _ => rfl, fun _ _ _ _ => rfl⟩

/-- Claim C8: the warmup outcome never appears in the attempt-outcome
sequence and never affects classification (the result is the same for any
two warmup outcomes), and a session whose warmup fails but whose timed
attempts include at least 3 valid samples still classifies as `Success`,
computed from the timed attempts only. -/
theorem warmup_excluded :
    (∀ (p c : Option String) (w w' : AttemptResult) (f : Nat → AttemptResult) (n : Nat),
        test_node_latency ⟨p, c, w, f⟩ n = test_node_latency ⟨p, c, w', f⟩ n)
    ∧ (∀ (w : AttemptResult) (f : Nat → AttemptResult) (n : Nat),
        3 ≤ (validLatencies (runAttempts f n)).length →
        test_node_latency ⟨none, none, w, f⟩ n = classify (runAttempts f n) n
        ∧ ∃ med avg mn mx,
            test_node_latency ⟨none, none, w, f⟩ n = .success med avg mn mx) := by
  constructor
  · intro p c w w' f n
    cases p <;> cases c <;> rfl
  · intro w f n h3
    exact ⟨rfl, _, _, _, _, classify_success_eq (runAttempts f n) n h3⟩

/-- Witness for C8: a session whose warmup times out but whose 3 timed
attempts all succeed classifies as `Success`. -/
theorem warmup_excluded_witness :
    3 ≤ (validLatencies (runAttempts (fun _ => .ok true 10) 3)).length
    ∧ test_node_latency ⟨none, none, .timedOut, fun _ => .ok true 10⟩ 3
        = classify (runAttempts (fun _ => .ok true 10) 3) 3
    ∧ ∃ med avg mn mx,
        test_node_latency ⟨none, none, .timedOut, fun _ => .ok true 10⟩ 3
          = .success med avg mn mx := by
  refine ⟨by decide, ?_⟩
  have h := warmup_excluded.2 .timedOut (fun _ => .ok true 10) 3 (by decide)
  exact ⟨h.1, h.2⟩

/-! ### Claim C2 -/

/-- Claim C2: the ranker's comparator orders every `Success` row before every
non-`Success` row, orders two `Success` rows ascending by median, and
compares any two non-`Success` rows as equal regardless of variant; in
particular, one `Success{median=5}` row, one `Success{median=20}` row and one
`AllFailed` row sort, from any of the six input orders, to
`median=5, median=20, AllFailed`. -/
theorem ranker_ordering :
    (∀ a b : LatencyResult, a.isSuccess = true → b.isSuccess = false →
        cmpLatency a b = Ordering.lt)
    ∧ (∀ (ma aa mna mxa mb ab mnb mxb : ℚ), ma < mb →
        cmpLatency (.success ma aa mna mxa) (.success mb ab mnb mxb) = Ordering.lt)
    ∧ (∀ (ma aa mna mxa mb ab mnb mxb : ℚ), mb < ma →
        cmpLatency (.success ma aa mna mxa) (.success mb ab mnb mxb) = Ordering.gt)
    ∧ (∀ a b : LatencyResult, a.isSuccess = false → b.isSuccess = false →
        cmpLatency a b = Ordering.eq)
    ∧ (∀ rows : List Row,
        rows ∈ ([
          [("a", 1, .success 5 6 4 7), ("b", 2, .success 20 21 19 22), ("c", 3, .allFailed)],
          [("a", 1, .success 5 6 4 7), ("c", 3, .allFailed), ("b", 2, .success 20 21 19 22)],
          [("b", 2, .success 20 21 19 22), ("a", 1, .success 5 6 4 7), ("c", 3, .allFailed)],
          [("b", 2, .success 20 21 19 22), ("c", 3, .allFailed), ("a", 1, .success 5 6 4 7)],
          [("c", 3, .allFailed), ("a", 1, .success 5 6 4 7), ("b", 2, .success 20 21 19 22)],
          [("c", 3, .allFailed), ("b", 2, .success 20 21 19 22), ("a", 1, .success 5 6 4 7)]]
          : List (List Row)) →
        rankResults rows =
          [("a", 1, .success 5 6 4 7), ("b", 2, .success 20 21 19 22), ("c", 3, .allFailed)]) := by
  refine ⟨?_, ?_, ?_, ?_, ?_⟩
  · intro a b ha hb
    cases a with
    | success ma aa mna mxa =>
      cases b with
      | success mb ab mnb mxb => simp [LatencyResult.isSuccess] at hb
      | unstable v t => rfl
      | allFailed => rfl
      | sessionError m => rfl
    | unstable v t => simp [LatencyResult.isSuccess] at ha
    | allFailed => simp [LatencyResult.isSuccess] at ha
    | sessionError m => simp [LatencyResult.isSuccess] at ha
  · intro ma aa mna mxa mb ab mnb mxb h
    simp [cmpLatency, h]
  · intro ma aa mna mxa mb ab mnb mxb h
    have hn : ¬ ma < mb := not_lt_of_gt h
    simp [cmpLatency, hn, h]
  · intro a b ha hb
    cases a with
    | success ma aa mna mxa => simp [LatencyResult.isSuccess] at ha
    | unstable v t =>
      cases b with
      | success mb ab mnb mxb => simp [LatencyResult.isSuccess] at hb
      | unstable v2 t2 => rfl
      | allFailed => rfl
      | sessionError m => rfl
    | allFailed =>
      cases b with
      | success mb ab mnb mxb => simp [LatencyResult.isSuccess] at hb
      | unstable v2 t2 => rfl
      | allFailed => rfl
      | sessionError m => rfl
    | sessionError m =>
      cases b with
      | success mb ab mnb mxb => simp [LatencyResult.isSuccess] at hb
      | unstable v2 t2 => rfl
      | allFailed => rfl
      | sessionError m2 => rfl
  · decide

/-- Witness for C2: the comparator facts at concrete rows, and ranking the
reversed input `[AllFailed, median=20, median=5]` yields
`[median=5, median=20, AllFailed]`. -/
theorem ranker_ordering_witness :
    cmpLatency (.success 5 6 4 7) .allFailed = Ordering.lt
    ∧ cmpLatency (.success 5 6 4 7) (.success 20 21 19 22) = Ordering.lt
    ∧ cmpLatency (.success 20 21 19 22) (.success 5 6 4 7) = Ordering.gt
    ∧ cmpLatency .allFailed (.unstable 1 10) = Ordering.eq
    ∧ rankResults
        [("c", 3, .allFailed), ("b", 2, .success 20 21 19 22), ("a", 1, .success 5 6 4 7)]
        = [("a", 1, .success 5 6 4 7), ("b", 2, .success 20 21 19 22), ("c", 3, .allFailed)] :=
  ⟨ranker_ordering.1 _ _ (by decide) (by decide),
   ranker_ordering.2.1 5 6 4 7 20 21 19 22 (by norm_num),
   ranker_ordering.2.2.1 20 21 19 22 5 6 4 7 (by norm_num),
   ranker_ordering.2.2.2.1 _ _ (by decide) (by decide),
   ranker_ordering.2.2.2.2 _ (by decide)⟩

/-! ### Claim C10 -/

/-- C10 counterexample: a transport-error message of 19 ASCII characters
followed by the 3-byte character `'预'` has 22 bytes, and byte offset 20 is
not a character boundary, so the slice `&error_str[..20]` panics (`none`):
the claim that the slicing never panics for every message is false. -/
theorem truncate_panics_counterexample :
    truncateErrorMsg (List.replicate 19 'a' ++ ['预']) = none := by decide

lemma takeBytes_ascii (s : List Char) :
    ∀ n : Nat, (∀ c ∈ s, charSize c = 1) → n ≤ s.length →
      takeBytes s n = some (s.take n) := by
  induction s with
  | nil =>
    intro n _ hn
    simp only [List.length_nil, Nat.le_zero] at hn
    subst hn
    rfl
  | cons c cs ih =>
    intro n hall hn
    cases n with
    | zero => rfl
    | succ n =>
      have hc : charSize c = 1 := hall c (by simp)
      simp only [takeBytes, hc]
      rw [if_pos (by omega)]
      have hsub : n + 1 - 1 = n := by omega
      rw [hsub, ih n (fun x hx => hall x (by simp [hx])) (by simpa using hn)]
      rfl

lemma utf8ByteLen_ascii (s : List Char) (h : ∀ c ∈ s, charSize c = 1) :
    utf8ByteLen s = s.length := by
  induction s with
  | nil => rfl
  | cons c cs ih =>
    simp only [utf8ByteLen, List.map_cons, List.sum_cons, List.length_cons]
    rw [h c (by simp)]
    have hih := ih (fun x hx => h x (by simp [hx]))
    simp only [utf8ByteLen] at hih
    omega

/-- Claim C10 (amended): emitting the progress line is safe for ASCII
messages — when every character of the transport-error message is ASCII, the
truncation never panics and produces the first 20 bytes (= 20 characters)
whenever the message exceeds 20 bytes; for general UTF-8 messages the slice
can panic (see the counterexample). -/
theorem truncate_ascii_safe (s : List Char) (h : ∀ c ∈ s, c.toNat < 128) :
    truncateErrorMsg s = some (if 20 < utf8ByteLen s then s.take 20 else s) := by
  have hsize : ∀ c ∈ s, charSize c = 1 := fun c hc => by
    simp [charSize, h c hc]
  by_cases h20 : 20 < utf8ByteLen s
  · rw [truncateErrorMsg, if_pos h20, if_pos h20]
    exact takeBytes_ascii s 20 hsize (by rw [← utf8ByteLen_ascii s hsize]; omega)
  · rw [truncateErrorMsg, if_neg h20, if_neg h20]

/-- Witness for C10 (amended): a 25-character ASCII message is truncated,
without panicking, to its first 20 characters. -/
theorem truncate_ascii_safe_witness :
    (∀ c ∈ List.replicate 25 'a', c.toNat < 128)
    ∧ truncateErrorMsg (List.replicate 25 'a') = some (List.replicate 20 'a') := by
  refine ⟨by decide, ?_⟩
  rw [truncate_ascii_safe (List.replicate 25 'a') (by decide)]
  decide

end ProxyDelay
